import Mathlib

/-!
Verification of the extraction-and-pagination engine of
`src/booking_scraper.py` (class `HotelScraper`), shallowly embedded in Lean.

Modelling conventions:
* Python `float` is modelled by `PyFloat`: an exact rational for finite
  values, plus a `+inf` constructor.  CPython's `float(str)` follows C
  `strtod`: a decimal string whose value reaches the IEEE-754 double
  overflow threshold converts to `inf` without raising.  Finite results
  are kept as exact rationals (rounding to the nearest double is not
  modelled; every claim compares exact decimal literals, which round
  identically on both sides in Python).
* Python `str.isdigit` is modelled as ASCII `Char.isDigit` (the inputs of
  interest are ASCII; Unicode digit classes are out of scope).
* The DOM is abstract: a well-formed card is a function from the six CSS
  selectors used by `_extract_single_hotel` to `Option String`
  (`find_element` returning an element's text, or raising
  `NoSuchElementException` = `none`).  A card whose access raises an
  unexpected exception is `Card.faulty`.
-/

/-- Model of a Python `float` value produced by `float(<digits/dots string>)`:
either a finite value (kept as an exact rational) or `+inf` (overflow).
Strings of digits and dots can produce no negative value and no NaN. -/
inductive PyFloat where
  | finite (q : ℚ)
  | inf
deriving DecidableEq, Repr

/-- Value of a list of decimal digit characters read as a base-10 natural
number (the empty list reads as 0, as in `float(".5")`). -/
def digitsToNat (ds : List Char) : Nat :=
  ds.foldl (fun acc c => 10 * acc + (c.toNat - 48)) 0

/-- A decimal token of digits and at most one dot, as CPython `float()`
parses it, kept as (mantissa, number of fraction digits) — the value is
`mantissa / 10 ^ fracLen`.  `none` when the token is not a valid float
literal (no digit at all, or more than one dot — `ValueError` in Python). -/
def parseDigitDot (cs : List Char) : Option (Nat × Nat) :=
  if cs.all (fun c => c.isDigit || c = '.') ∧ cs.count '.' ≤ 1 ∧ cs.any Char.isDigit then
    let intPart := cs.takeWhile (fun c => c ≠ '.')
    let fracPart := (cs.dropWhile (fun c => c ≠ '.')).drop 1
    some (digitsToNat (intPart ++ fracPart), fracPart.length)
  else
    none

/-- The IEEE-754 double overflow threshold under round-to-nearest-even:
a decimal value `≥ 2^1024 − 2^970` converts to `+inf`.  (Integer, since
`2^1024 − 2^970 = 2^970·(2^54 − 1)`.  Irreducible so that definitional
unfolding never evaluates `2^1024`; proofs go through monotonicity.) -/
@[irreducible] def DBL_OVERFLOW : Nat := 2 ^ 1024 - 2 ^ 970

/-- Classify the exact decimal value `m / 10^f` as a Python float:
finite below the overflow threshold, `inf` at or above it. -/
def pyFloatOfDec (m f : Nat) : PyFloat :=
  if m < DBL_OVERFLOW * 10 ^ f then .finite ((m : ℚ) / 10 ^ f) else .inf

/-- `HotelScraper._clean_price` (src/booking_scraper.py:266-282).
Keeps only digit/dot characters (`char.isdigit() or char == '.'`), then
`cleaned.split()` — a no-op on a whitespace-free string, giving `[]` only
when `cleaned` is empty — and `float(numbers[0])`, with
`ValueError`/`TypeError`/`IndexError` mapped to `0.0`. -/
def clean_price (price_text : String) : PyFloat :=
  if price_text = "" then .finite 0
  else if price_text.data.filter (fun c => c.isDigit || c = '.') = [] then .finite 0
  else
    match parseDigitDot (price_text.data.filter (fun c => c.isDigit || c = '.')) with
    | some (m, f) => pyFloatOfDec m f
    | none => .finite 0

/-- The substring that the regex `\d+\.\d+|\d+` matches at a position whose
first character is a digit: the maximal digit run, extended by `.` and a
second maximal digit run when one directly follows (greedy alternation
semantics of `re`). -/
def numeralAt (cs : List Char) : List Char :=
  if (cs.dropWhile Char.isDigit).take 1 = ['.'] ∧
      ((cs.dropWhile Char.isDigit).drop 1).takeWhile Char.isDigit ≠ [] then
    cs.takeWhile Char.isDigit ++
      '.' :: ((cs.dropWhile Char.isDigit).drop 1).takeWhile Char.isDigit
  else
    cs.takeWhile Char.isDigit

/-- First match of `re.findall(r"(\d+\.\d+|\d+)", text)`: the regex scans
left to right; both alternatives start with `\d`, so the first match begins
at the first digit character. `none` when the text has no digit. -/
def findFirstNumeral : List Char → Option (List Char)
  | [] => none
  | c :: rest => if c.isDigit then some (numeralAt (c :: rest)) else findFirstNumeral rest

/-- `HotelScraper._clean_rating` (src/booking_scraper.py:284-298).
`re.findall(r"(\d+\.\d+|\d+)", rating_text)`, then `float(numbers[0])` on
the first match, `0.0` when there is none or the text is empty. -/
def clean_rating (rating_text : String) : PyFloat :=
  if rating_text = "" then .finite 0
  else
    match findFirstNumeral rating_text.data with
    | some num =>
      match parseDigitDot num with
      | some (m, f) => pyFloatOfDec m f
      | none => .finite 0
    | none => .finite 0

/-- The six CSS selectors `_extract_single_hotel` resolves, as abstract
keys (their literal CSS text plays no role in the model):
`title`, `price-and-discounted-price`, `review-score`, `location`,
`review-score div:last-child`, `distance`. -/
inductive Selector where
  | title
  | price
  | rating
  | location
  | reviewCount
  | distance
deriving DecidableEq, Repr

/-- One rendered result card. A well-formed card maps each selector to the
text of the matched descendant element (`none` = `NoSuchElementException`);
`faulty` is a card any access to which raises an unexpected exception
(e.g. a stale element). -/
inductive Card where
  | ok (find : Selector → Option String)
  | faulty

/-- Python `str.strip()` with no argument: remove leading and trailing
whitespace (structural model of `String.trim`). -/
def pyStrip (s : String) : String :=
  String.mk (((s.data.dropWhile Char.isWhitespace).reverse.dropWhile Char.isWhitespace).reverse)

/-- `HotelScraper._safe_extract_text` (src/booking_scraper.py:249-264):
`find_element` then `element.text.strip()`, with `NoSuchElementException`
mapped to the empty string. -/
def safe_extract_text (find : Selector → Option String) (sel : Selector) : String :=
  match find sel with
  | some t => pyStrip t
  | none => ""

/-- Candidate-chain resolution (the spec's `FieldResolver.resolve`): the
try-in-declared-order loop of src/booking_scraper.py applied to a
`SelectorSpec`, each candidate handled exactly as `_safe_extract_text`
handles its single selector; in the source every per-field spec is a
one-candidate chain. Generic in the selector type. -/
def resolve {α : Type} (find : α → Option String) : List α → String
  | [] => ""
  | s :: rest =>
    match find s with
    | some t => pyStrip t
    | none => resolve find rest

/-- One extracted record, the dict built by `_extract_single_hotel`
(src/booking_scraper.py:198-247).  The `scraped_at` timestamp column is
added uniformly by `_create_dataframe` and carries no per-row content, so
it is not modelled. -/
structure Hotel where
  hotel_name : String
  price : PyFloat
  rating : PyFloat
  location : String
  review_count : String
  distance : String
deriving DecidableEq, Repr

/-- `HotelScraper._extract_single_hotel` (src/booking_scraper.py:198-247):
resolves the six fields independently via `_safe_extract_text`, normalizes
price and rating; any unexpected exception is caught and yields `None`. -/
def extract_single_hotel : Card → Option Hotel
  | .faulty => none
  | .ok find =>
    some
      { hotel_name := safe_extract_text find .title
        price := clean_price (safe_extract_text find .price)
        rating := clean_rating (safe_extract_text find .rating)
        location := safe_extract_text find .location
        review_count := safe_extract_text find .reviewCount
        distance := safe_extract_text find .distance }

/-- Whether a card is the faulty one. -/
def isFaulty : Card → Bool
  | .faulty => true
  | .ok _ => false

/-- The per-card loop body of `_scrape_current_page`
(src/booking_scraper.py:181-189): extract, and append only when the dict
is present and `hotel_data['hotel_name']` is truthy (non-empty); a
per-card exception is caught and the loop continues. -/
def scrape_cards : List Card → List Hotel → List Hotel
  | [], data => data
  | c :: rest, data =>
    match extract_single_hotel c with
    | some h => if h.hotel_name ≠ "" then scrape_cards rest (data ++ [h]) else scrape_cards rest data
    | none => scrape_cards rest data

/-- `HotelScraper._scrape_current_page` (src/booking_scraper.py:172-196):
runs the card loop over the page's cards and reports
`len(self.data) - hotels_before` as the page's record count. -/
def scrape_current_page (cards : List Card) (data : List Hotel) : List Hotel × Nat :=
  let newData := scrape_cards cards data
  (newData, newData.length - data.length)

/-- The records a page's card list contributes, in card order: the cards
whose extraction yields a dict with a non-empty name. -/
def validListings (cards : List Card) : List Hotel :=
  (cards.filterMap extract_single_hotel).filter (fun h => h.hotel_name ≠ "")

/-- Outcome of the wait for `[data-testid=property-card]` at the top of a
loop iteration of `scrape_hotel_data`: cards render, the wait times out
(`TimeoutException`), or the session raises an unrecoverable fault that
escapes to the outer `except`. -/
inductive WaitOutcome where
  | cards (cs : List Card)
  | timeout
  | fault

/-- Abstraction of the browser session for one run: whether the initial
`driver.get(url)` succeeds, the outcome of the card wait at each loop
iteration, and whether `_go_to_next_page` finds and clicks a next-page
control at each iteration (its internal exceptions are all caught, so its
result is a plain Bool). -/
structure Script where
  navOk : Bool
  waits : Nat → WaitOutcome
  nexts : Nat → Bool

/-- `HotelScraper._create_dataframe` (src/booking_scraper.py:336-352),
row-wise: an empty accumulator gives an empty frame, otherwise one row per
dict in insertion order (the `scraped_at` stamp and the
`pd.to_numeric(...).fillna(0)` coercions do not change the rows: price and
rating are already numeric). -/
def create_dataframe (data : List Hotel) : List Hotel := data

/-- Result of one `scrape_hotel_data` call: the instance's `self.data`
after the call, the rows of the returned DataFrame, whether the outer
`except` was hit, how many card waits (fetch transitions) ran, and at
which page indices `_go_to_next_page` was invoked. -/
structure RunResult where
  data : List Hotel
  returned : List Hotel
  failed : Bool
  fetches : Nat
  nextCalls : List Nat

/-- The `for page in range(max_pages)` loop of `scrape_hotel_data`
(src/booking_scraper.py:139-166): wait for cards (a `TimeoutException`
breaks to the DataFrame return, an unrecoverable fault falls to the outer
`except Exception` which returns `pd.DataFrame()`), extract the page, and
only when `page < max_pages - 1` try `_go_to_next_page`, breaking when it
returns `False`.  Structured as recursion on the number of remaining
iterations of `range(max_pages)`; callers keep the invariant
`remaining + page = maxPages`, so `remaining = 0` is exactly loop
exhaustion. -/
def scrape_loop (script : Script) (maxPages : Nat) :
    Nat → Nat → List Hotel → Nat → List Nat → RunResult
  | 0, _, acc, fetches, calls => ⟨acc, create_dataframe acc, false, fetches, calls⟩
  | remaining + 1, page, acc, fetches, calls =>
    match script.waits page with
    | .fault => ⟨acc, [], true, fetches + 1, calls⟩
    | .timeout => ⟨acc, create_dataframe acc, false, fetches + 1, calls⟩
    | .cards cs =>
      let acc1 := scrape_cards cs acc
      if page < maxPages - 1 then
        if script.nexts page then
          scrape_loop script maxPages remaining (page + 1) acc1 (fetches + 1) (calls ++ [page])
        else ⟨acc1, create_dataframe acc1, false, fetches + 1, calls ++ [page]⟩
      else
        scrape_loop script maxPages remaining (page + 1) acc1 (fetches + 1) calls

/-- `HotelScraper.scrape_hotel_data` (src/booking_scraper.py:120-170):
navigate (a failing `driver.get` falls to the outer `except`, which
returns `pd.DataFrame()` — an empty frame), then run the page loop.
`data0` is `self.data` on entry (`[]` on a fresh instance,
src/booking_scraper.py:55). -/
def scrape_hotel_data (script : Script) (maxPages : Nat) (data0 : List Hotel) : RunResult :=
  if script.navOk then scrape_loop script maxPages maxPages 0 data0 0 []
  else ⟨data0, [], true, 0, []⟩

/-- The records page `p` of a script contributes (empty when the wait at
iteration `p` does not render cards). -/
def pageListings (script : Script) (p : Nat) : List Hotel :=
  match script.waits p with
  | .cards cs => validListings cs
  | _ => []

/-- Concatenated listings of `k` consecutive pages starting at `start`. -/
def pagesListings (script : Script) : Nat → Nat → List Hotel
  | _, 0 => []
  | start, k + 1 => pageListings script start ++ pagesListings script (start + 1) k

/-- Definition following the spec's words for `parsePrice` (spec section
4.3), for the refinement claim: strip every character that is not a decimal
digit or a decimal point, parse the remaining token as a float, return 0.0
on empty input or parse failure. -/
def parsePrice_spec (text : String) : PyFloat :=
  match parseDigitDot (text.data.filter (fun c => c.isDigit || c = '.')) with
  | some (m, f) => pyFloatOfDec m f
  | none => .finite 0

/-- Whether a character list matches the numeral pattern
`\d+\.\d+|\d+` in full: a nonempty digit run, optionally followed by a
dot and a nonempty digit run. -/
def isNumeral (cs : List Char) : Bool :=
  if cs.takeWhile Char.isDigit = [] then false
  else if cs.dropWhile Char.isDigit = [] then true
  else if (cs.dropWhile Char.isDigit).take 1 = ['.'] ∧
      (cs.dropWhile Char.isDigit).drop 1 ≠ [] ∧
      ((cs.dropWhile Char.isDigit).drop 1).all Char.isDigit then true
  else false

/-- A find function resolving only the title (with surrounding whitespace). -/
def findA : Selector → Option String
  | .title => some " Hotel A "
  | _ => none

/-- Like `findA` but also resolving `distance`; used to show that
candidates after the first match never affect the result. -/
def findA2 : Selector → Option String
  | .title => some " Hotel A "
  | .distance => some "unused text"
  | _ => none

/-- A find function resolving nothing. -/
def findEmpty : Selector → Option String
  | _ => none

/-- A card whose only resolvable field is the title. -/
def cardA : Card := .ok findA

/-- The record `cardA` extracts: stripped name, every other field at its
default (empty string or 0.0). -/
def hotelA : Hotel :=
  { hotel_name := "Hotel A", price := .finite 0, rating := .finite 0
    location := "", review_count := "", distance := "" }

/-- Script: every page renders one valid card and has a next-page control. -/
def everyNextScript : Script :=
  { navOk := true, waits := fun _ => .cards [cardA], nexts := fun _ => true }

/-- Script: page 0 renders one valid card; the wait on page 1 raises an
unrecoverable session fault; next-page controls everywhere. -/
def faultAfterOneScript : Script :=
  { navOk := true, waits := fun n => if n = 0 then .cards [cardA] else .fault
    nexts := fun _ => true }

/-- Script: pages render one valid card, no next-page control is found. -/
def oneGoodPageScript : Script :=
  { navOk := true, waits := fun _ => .cards [cardA], nexts := fun _ => false }

/-- Script whose initial navigation faults before any page loads. -/
def navFailScript : Script :=
  { navOk := false, waits := fun _ => .timeout, nexts := fun _ => false }

/-- A 320-digit string of ones; as a decimal value it exceeds the IEEE-754
double overflow threshold, so CPython `float()` turns it into `inf`. -/
def bigOnes : String := String.mk (List.replicate 320 '1')

/-- Bundle of run facts established by one induction over the page loop:
data layout, fetch budget, returned rows on the two exit kinds, and the
set of pages where the next-page control was invoked. -/
def RunBehaves (r : RunResult) (acc : List Hotel) (fetches0 : Nat) (calls0 : List Nat)
    (script : Script) (maxPages page remaining k : Nat) : Prop :=
  r.data = acc ++ pagesListings script page k ∧
  r.fetches ≤ fetches0 + remaining ∧
  (r.failed = false → r.returned = r.data) ∧
  (r.failed = true → r.returned = []) ∧
  (∀ p ∈ r.nextCalls, p ∈ calls0 ∨ (page ≤ p ∧ p + 1 < maxPages))


/-- The overflow threshold dominates `2^1023` (no literal evaluation of
`2^1024` is ever performed; everything goes through monotonicity). -/
theorem le_DBL_OVERFLOW : 2 ^ 1023 ≤ DBL_OVERFLOW := by
  have h1 : (2 : Nat) ^ 970 ≤ 2 ^ 1023 := Nat.pow_le_pow_right (by norm_num) (by norm_num)
  have h2 : (2 : Nat) ^ 1024 = 2 ^ 1023 + 2 ^ 1023 := by
    rw [← Nat.two_mul, ← Nat.pow_succ']
  unfold DBL_OVERFLOW
  omega

/-- A mantissa below `2^1023` is in the finite range whatever the number of
fraction digits. -/
theorem pyFloatOfDec_finite (m f : Nat) (h : m < 2 ^ 1023) :
    pyFloatOfDec m f = .finite ((m : ℚ) / 10 ^ f) := by
  have hpos : 0 < 10 ^ f := Nat.pos_pow_of_pos f (by norm_num)
  have : m < DBL_OVERFLOW * 10 ^ f :=
    lt_of_lt_of_le (lt_of_lt_of_le h le_DBL_OVERFLOW) (Nat.le_mul_of_pos_right _ hpos)
  unfold pyFloatOfDec
  rw [if_pos this]

/-- Convenience form of `pyFloatOfDec_finite` for small concrete mantissas. -/
theorem pyFloatOfDec_finite_small (m f : Nat) (h : m < 100000) :
    pyFloatOfDec m f = .finite ((m : ℚ) / 10 ^ f) := by
  have h17 : m < 2 ^ 17 := lt_of_lt_of_le h (by norm_num)
  have hle : (2 : Nat) ^ 17 ≤ 2 ^ 1023 := Nat.pow_le_pow_right (by norm_num) (by norm_num)
  exact pyFloatOfDec_finite m f (lt_of_lt_of_le h17 hle)

example : clean_price "" = .finite 0 := by decide
example : clean_price "abc" = .finite 0 := by decide
example : clean_price "1.2.3" = .finite 0 := by decide
example : clean_rating "Wonderful" = .finite 0 := by decide

example : clean_price "€123.45" = .finite (12345 / 100) := by
  have h : clean_price "€123.45" = pyFloatOfDec 12345 2 := by rfl
  rw [h, pyFloatOfDec_finite_small 12345 2 (by norm_num)]
  norm_num

example : clean_rating "8.3 Good" = .finite (83 / 10) := by
  have h : clean_rating "8.3 Good" = pyFloatOfDec 83 1 := by rfl
  rw [h, pyFloatOfDec_finite_small 83 1 (by norm_num)]
  norm_num

example : clean_rating "9" = .finite 9 := by
  have h : clean_rating "9" = pyFloatOfDec 9 0 := by rfl
  rw [h, pyFloatOfDec_finite_small 9 0 (by norm_num)]
  norm_num

example : clean_rating "12.34.56" = .finite (1234 / 100) := by
  have h : clean_rating "12.34.56" = pyFloatOfDec 1234 2 := by rfl
  rw [h, pyFloatOfDec_finite_small 1234 2 (by norm_num)]
  norm_num

/-- The card loop appends exactly the valid listings of the page, in card
order, after the existing data. -/
theorem scrape_cards_eq (cards : List Card) (data : List Hotel) :
    scrape_cards cards data = data ++ validListings cards := by
  induction cards generalizing data with
  | nil => simp [scrape_cards, validListings]
  | cons c rest ih =>
    cases hc : extract_single_hotel c with
    | none =>
      simp only [scrape_cards, hc]
      rw [ih]
      simp [validListings, List.filterMap_cons, hc]
    | some h =>
      simp only [scrape_cards, hc]
      by_cases hname : h.hotel_name = ""
      · rw [if_neg (not_not_intro hname), ih]
        simp [validListings, List.filterMap_cons, hc, hname]
      · rw [if_pos hname, ih]
        simp [validListings, List.filterMap_cons, hc, hname, List.filter_cons]

/-- Main loop characterization, by induction on the remaining iterations. -/
theorem scrape_loop_char (script : Script) (maxPages : Nat) :
    ∀ (remaining page : Nat) (acc : List Hotel) (fetches : Nat) (calls : List Nat),
      ∃ k, k ≤ remaining ∧
        RunBehaves (scrape_loop script maxPages remaining page acc fetches calls)
          acc fetches calls script maxPages page remaining k := by
  intro remaining
  induction remaining with
  | zero =>
    intro page acc fetches calls
    refine ⟨0, Nat.le_refl 0, ?_⟩
    have hunf : scrape_loop script maxPages 0 page acc fetches calls =
        ⟨acc, create_dataframe acc, false, fetches, calls⟩ := rfl
    rw [hunf]
    refine ⟨by simp [pagesListings], ?_, ?_, ?_, ?_⟩
    · show fetches ≤ fetches + 0
      omega
    · intro _; rfl
    · intro hcontra; simp at hcontra
    · intro p hp; exact Or.inl hp
  | succ remaining ih =>
    intro page acc fetches calls
    cases hw : script.waits page with
    | fault =>
      refine ⟨0, Nat.zero_le _, ?_⟩
      have hunf : scrape_loop script maxPages (remaining + 1) page acc fetches calls =
          ⟨acc, [], true, fetches + 1, calls⟩ := by
        simp only [scrape_loop, hw]
      rw [hunf]
      refine ⟨by simp [pagesListings], ?_, ?_, ?_, ?_⟩
      · show fetches + 1 ≤ fetches + (remaining + 1)
        omega
      · intro hcontra; simp at hcontra
      · intro _; rfl
      · intro p hp; exact Or.inl hp
    | timeout =>
      refine ⟨0, Nat.zero_le _, ?_⟩
      have hunf : scrape_loop script maxPages (remaining + 1) page acc fetches calls =
          ⟨acc, create_dataframe acc, false, fetches + 1, calls⟩ := by
        simp only [scrape_loop, hw]
      rw [hunf]
      refine ⟨by simp [pagesListings], ?_, ?_, ?_, ?_⟩
      · show fetches + 1 ≤ fetches + (remaining + 1)
        omega
      · intro _; rfl
      · intro hcontra; simp at hcontra
      · intro p hp; exact Or.inl hp
    | cards cs =>
      by_cases hlast : page < maxPages - 1
      · by_cases hnext : script.nexts page = true
        · obtain ⟨k, hk, hdata, hfetch, hretok, hretfail, hcalls⟩ :=
            ih (page + 1) (scrape_cards cs acc) (fetches + 1) (calls ++ [page])
          refine ⟨k + 1, by omega, ?_⟩
          have hunf : scrape_loop script maxPages (remaining + 1) page acc fetches calls =
              scrape_loop script maxPages remaining (page + 1) (scrape_cards cs acc)
                (fetches + 1) (calls ++ [page]) := by
            simp only [scrape_loop, hw, if_pos hlast, hnext, if_true]
          rw [hunf]
          refine ⟨?_, by omega, hretok, hretfail, ?_⟩
          · rw [hdata, scrape_cards_eq]
            simp [pagesListings, pageListings, hw, List.append_assoc]
          · intro p hp
            rcases hcalls p hp with hin | hrange
            · rcases List.mem_append.mp hin with h2 | h2
              · exact Or.inl h2
              · have hp2 : p = page := by simpa using h2
                exact Or.inr ⟨by omega, by omega⟩
            · exact Or.inr ⟨by omega, hrange.2⟩
        · have hnext' : script.nexts page = false := by
            cases hb : script.nexts page
            · rfl
            · exact absurd hb hnext
          refine ⟨1, by omega, ?_⟩
          have hunf : scrape_loop script maxPages (remaining + 1) page acc fetches calls =
              ⟨scrape_cards cs acc, create_dataframe (scrape_cards cs acc), false,
                fetches + 1, calls ++ [page]⟩ := by
            simp only [scrape_loop, hw, if_pos hlast, hnext', Bool.false_eq_true, if_false]
          rw [hunf]
          refine ⟨?_, ?_, ?_, ?_, ?_⟩
          · rw [scrape_cards_eq]
            simp [pagesListings, pageListings, hw]
          · show fetches + 1 ≤ fetches + (remaining + 1)
            omega
          · intro _; rfl
          · intro hcontra; simp at hcontra
          · intro p hp
            rcases List.mem_append.mp hp with h2 | h2
            · exact Or.inl h2
            · have hp2 : p = page := by simpa using h2
              exact Or.inr ⟨by omega, by omega⟩
      · obtain ⟨k, hk, hdata, hfetch, hretok, hretfail, hcalls⟩ :=
          ih (page + 1) (scrape_cards cs acc) (fetches + 1) calls
        refine ⟨k + 1, by omega, ?_⟩
        have hunf : scrape_loop script maxPages (remaining + 1) page acc fetches calls =
            scrape_loop script maxPages remaining (page + 1) (scrape_cards cs acc)
              (fetches + 1) calls := by
          simp only [scrape_loop, hw, if_neg hlast]
        rw [hunf]
        refine ⟨?_, by omega, hretok, hretfail, ?_⟩
        · rw [hdata, scrape_cards_eq]
          simp [pagesListings, pageListings, hw, List.append_assoc]
        · intro p hp
          rcases hcalls p hp with hin | hrange
          · exact Or.inl hin
          · exact Or.inr ⟨by omega, hrange.2⟩

/-- Run-level characterization of `scrape_hotel_data`. -/
theorem scrape_run_char (script : Script) (maxPages : Nat) (data0 : List Hotel) :
    ∃ k, k ≤ maxPages ∧
      (scrape_hotel_data script maxPages data0).data = data0 ++ pagesListings script 0 k ∧
      (scrape_hotel_data script maxPages data0).fetches ≤ maxPages ∧
      ((scrape_hotel_data script maxPages data0).failed = false →
        (scrape_hotel_data script maxPages data0).returned =
          (scrape_hotel_data script maxPages data0).data) ∧
      ((scrape_hotel_data script maxPages data0).failed = true →
        (scrape_hotel_data script maxPages data0).returned = []) ∧
      (∀ p ∈ (scrape_hotel_data script maxPages data0).nextCalls, p + 1 < maxPages) := by
  by_cases hnav : script.navOk = true
  · obtain ⟨k, hk, hdata, hfetch, hretok, hretfail, hcalls⟩ :=
      scrape_loop_char script maxPages maxPages 0 data0 0 []
    rw [scrape_hotel_data, if_pos hnav]
    refine ⟨k, by omega, hdata, by omega, hretok, hretfail, ?_⟩
    intro p hp
    rcases hcalls p hp with hin | hrange
    · simp at hin
    · exact hrange.2
  · have hnav' : script.navOk = false := by
      cases hb : script.navOk
      · rfl
      · exact absurd hb hnav
    rw [scrape_hotel_data, if_neg (by rw [hnav']; simp)]
    refine ⟨0, by omega, by simp [pagesListings], by simp, ?_, ?_, ?_⟩
    · intro hcontra; simp at hcontra
    · intro _; rfl
    · intro p hp; simp at hp

/-- Dropping failing candidates at the head of a chain does not change
resolution. -/
theorem resolve_append_none {α : Type} (find : α → Option String) (pre l : List α)
    (hpre : ∀ x ∈ pre, find x = none) : resolve find (pre ++ l) = resolve find l := by
  induction pre with
  | nil => rfl
  | cons s rest ih =>
    have hs : find s = none := hpre s (List.mem_cons_self s rest)
    simp only [List.cons_append, resolve, hs]
    exact ih (fun x hx => hpre x (List.mem_cons_of_mem s hx))

/-- C2: for every resolution over a SelectorSpec, candidates are tried in
declared order: when every candidate before `s` fails and `s` resolves to
text `t`, the result is the stripped text of `t`, and it is independent of
everything after the first match (`find2` agrees with `find` only up to and
including `s` and is unconstrained later, yet resolves identically); when
every candidate fails the result is the empty string.  `resolve` is a total
function, so resolution never throws. -/
theorem resolve_first_match_ok :
    (∀ (find find2 : Selector → Option String) (pre post : List Selector) (s : Selector)
        (t : String),
      (∀ x ∈ pre, find x = none) → find s = some t →
      (∀ x ∈ pre, find2 x = none) → find2 s = some t →
      resolve find (pre ++ s :: post) = pyStrip t ∧
        resolve find2 (pre ++ s :: post) = pyStrip t) ∧
    (∀ (find : Selector → Option String) (spec : List Selector),
      (∀ x ∈ spec, find x = none) → resolve find spec = "") := by
  constructor
  · intro find find2 pre post s t h1 h2 h3 h4
    constructor
    · rw [resolve_append_none find pre _ h1]
      simp [resolve, h2]
    · rw [resolve_append_none find2 pre _ h3]
      simp [resolve, h4]
  · intro find spec
    induction spec with
    | nil => intro _; rfl
    | cons s rest ih =>
      intro h
      have hs : find s = none := h s (List.mem_cons_self s rest)
      simp only [resolve, hs]
      exact ih (fun x hx => h x (List.mem_cons_of_mem s hx))

/-- C2 witness: on the chain `[price, title, distance]`, `findA` fails on
`price` and matches on `title`; `findA2` also resolves the later candidate
`distance`, and the result is the same stripped title; a chain whose every
candidate fails resolves to the empty string. -/
theorem resolve_first_match_ok_witness :
    resolve findA [Selector.price, Selector.title, Selector.distance] = pyStrip " Hotel A " ∧
    resolve findA2 [Selector.price, Selector.title, Selector.distance] = pyStrip " Hotel A " ∧
    resolve findEmpty [Selector.title, Selector.price] = "" := by
  refine ⟨?_, ?_, ?_⟩
  · exact (resolve_first_match_ok.1 findA findA2 [Selector.price] [Selector.distance]
      Selector.title " Hotel A " (by decide) rfl (by decide) rfl).1
  · exact (resolve_first_match_ok.1 findA findA2 [Selector.price] [Selector.distance]
      Selector.title " Hotel A " (by decide) rfl (by decide) rfl).2
  · exact resolve_first_match_ok.2 findEmpty [Selector.title, Selector.price] (by decide)

/-- C3: a run performs at most `maxPages` fetch transitions (waits for the
page's cards), and `_go_to_next_page` is only ever invoked at page indices
`p` with `p + 1 < maxPages` — never on the final allowed page — whatever
the page contents and however many next-page controls exist. -/
theorem page_budget_ok (script : Script) (maxPages : Nat) (data0 : List Hotel) :
    (scrape_hotel_data script maxPages data0).fetches ≤ maxPages ∧
    ∀ p ∈ (scrape_hotel_data script maxPages data0).nextCalls, p + 1 < maxPages := by
  obtain ⟨k, hk, hdata, hfetch, hretok, hretfail, hcalls⟩ := scrape_run_char script maxPages data0
  exact ⟨hfetch, hcalls⟩

/-- C3 witness: with `maxPages = 2` and a next-page control on every page,
at most 2 fetches happen, the control is clicked on page 0, and that click
satisfies the bound `0 + 1 < 2` (so page 1's control is never clicked). -/
theorem page_budget_ok_witness :
    (scrape_hotel_data everyNextScript 2 []).fetches ≤ 2 ∧
    0 ∈ (scrape_hotel_data everyNextScript 2 []).nextCalls ∧ 0 + 1 < 2 := by
  refine ⟨(page_budget_ok everyNextScript 2 []).1, ?_, ?_⟩
  · show (0 : Nat) ∈ [0]
    simp
  · exact (page_budget_ok everyNextScript 2 []).2 0 (by show (0 : Nat) ∈ [0]; simp)

/-- C9: the accumulator preserves extraction order across pages: the final
`self.data` is the initial data followed by the concatenation, in page
order, of the listings each processed page contributed — so every record of
page `i` precedes every record of page `i+1` and nothing is deduplicated or
reordered; when the run completes traversal (not Failed) the returned
dataset is exactly that ordered list. -/
theorem accumulator_order_ok (script : Script) (maxPages : Nat) (data0 : List Hotel) :
    ∃ k, k ≤ maxPages ∧
      (scrape_hotel_data script maxPages data0).data = data0 ++ pagesListings script 0 k ∧
      ((scrape_hotel_data script maxPages data0).failed = false →
        (scrape_hotel_data script maxPages data0).returned =
          data0 ++ pagesListings script 0 k) := by
  obtain ⟨k, hk, hdata, hfetch, hretok, hretfail, hcalls⟩ := scrape_run_char script maxPages data0
  exact ⟨k, hk, hdata, fun hf => by rw [hretok hf, hdata]⟩

/-- C9 witness: a completed two-page run returns exactly the ordered
page-by-page concatenation. -/
theorem accumulator_order_ok_witness :
    ∃ k, k ≤ 2 ∧
      (scrape_hotel_data everyNextScript 2 []).data = [] ++ pagesListings everyNextScript 0 k ∧
      (scrape_hotel_data everyNextScript 2 []).returned =
        [] ++ pagesListings everyNextScript 0 k := by
  obtain ⟨k, hk, hdata, hret⟩ := accumulator_order_ok everyNextScript 2 []
  exact ⟨k, hk, hdata, hret rfl⟩

/-- C1 counterexample: with `faultAfterOneScript` and `maxPages = 2`, one
listing is appended on page 0 and the session fault during page 1's wait
reaches the outer `except` of `scrape_hotel_data`, which returns
`pd.DataFrame()`: the returned dataset is EMPTY even though `self.data`
holds the accumulated listing — contradicting the claim that the
accumulated partial results are still returned. -/
theorem failed_run_counterexample :
    (scrape_hotel_data faultAfterOneScript 2 []).data = [hotelA] ∧
    (scrape_hotel_data faultAfterOneScript 2 []).failed = true ∧
    (scrape_hotel_data faultAfterOneScript 2 []).returned = [] :=
  ⟨rfl, rfl, rfl⟩

/-- C1 amended: when a run ends in the Failed state the call returns an
empty DataFrame — the partial results are NOT in the returned dataset; they
are retained only in the instance's `self.data` (initial data followed by
the listings of the pages processed before the fault). -/
theorem scrape_failed_partial_data (script : Script) (maxPages : Nat) (data0 : List Hotel) :
    ((scrape_hotel_data script maxPages data0).failed = true →
      (scrape_hotel_data script maxPages data0).returned = []) ∧
    ∃ k, k ≤ maxPages ∧
      (scrape_hotel_data script maxPages data0).data = data0 ++ pagesListings script 0 k := by
  obtain ⟨k, hk, hdata, hfetch, hretok, hretfail, hcalls⟩ := scrape_run_char script maxPages data0
  exact ⟨hretfail, k, hk, hdata⟩

/-- C1 amended witness: the failing two-page run returns an empty frame
while keeping its accumulated page-0 listing in `self.data`. -/
theorem scrape_failed_partial_data_witness :
    (scrape_hotel_data faultAfterOneScript 2 []).returned = [] ∧
    ∃ k, k ≤ 2 ∧ (scrape_hotel_data faultAfterOneScript 2 []).data =
      [] ++ pagesListings faultAfterOneScript 0 k :=
  ⟨(scrape_failed_partial_data faultAfterOneScript 2 []).1 rfl,
   (scrape_failed_partial_data faultAfterOneScript 2 []).2⟩

/-- C10 counterexample: a first run on `oneGoodPageScript` collects one
listing into `self.data`; a second call on the same instance whose
navigation faults returns an empty DataFrame, so the first call's records
are not included (as a prefix or at all) in the second call's dataset. -/
theorem successive_runs_counterexample :
    (scrape_hotel_data oneGoodPageScript 1 []).data = [hotelA] ∧
    (scrape_hotel_data navFailScript 1
        (scrape_hotel_data oneGoodPageScript 1 []).data).returned = [] ∧
    ¬ ∃ t, (scrape_hotel_data navFailScript 1
        (scrape_hotel_data oneGoodPageScript 1 []).data).returned =
      (scrape_hotel_data oneGoodPageScript 1 []).data ++ t := by
  refine ⟨rfl, rfl, ?_⟩
  rintro ⟨t, ht⟩
  have h1 : (scrape_hotel_data navFailScript 1
      (scrape_hotel_data oneGoodPageScript 1 []).data).returned = [] := rfl
  have h2 : (scrape_hotel_data oneGoodPageScript 1 []).data = [hotelA] := rfl
  rw [h1, h2] at ht
  simp at ht

/-- C10 amended: the accumulator is never cleared between runs: after two
successive calls on one instance, the first call's records are a prefix of
the instance's data, and a prefix of the second call's returned dataset
whenever the second call does not end in the Failed state; only a fresh
instance starts from an empty accumulator (`__init__` sets
`self.data = []`, which is the `data0 = []` of the first call). -/
theorem successive_runs_amended (s1 s2 : Script) (m1 m2 : Nat) :
    (∃ t, (scrape_hotel_data s2 m2 (scrape_hotel_data s1 m1 []).data).data =
        (scrape_hotel_data s1 m1 []).data ++ t) ∧
    ((scrape_hotel_data s2 m2 (scrape_hotel_data s1 m1 []).data).failed = false →
      ∃ t, (scrape_hotel_data s2 m2 (scrape_hotel_data s1 m1 []).data).returned =
        (scrape_hotel_data s1 m1 []).data ++ t) := by
  obtain ⟨k, hk, hdata, hfetch, hretok, hretfail, hcalls⟩ :=
    scrape_run_char s2 m2 (scrape_hotel_data s1 m1 []).data
  refine ⟨⟨pagesListings s2 0 k, hdata⟩, fun hf => ⟨pagesListings s2 0 k, ?_⟩⟩
  rw [hretok hf, hdata]

/-- C10 amended witness: two successive completed single-page runs; the
second call's dataset extends the first call's records (the accumulator was
not reset in between). -/
theorem successive_runs_amended_witness :
    (∃ t, (scrape_hotel_data oneGoodPageScript 1
        (scrape_hotel_data oneGoodPageScript 1 []).data).data =
      (scrape_hotel_data oneGoodPageScript 1 []).data ++ t) ∧
    ∃ t, (scrape_hotel_data oneGoodPageScript 1
        (scrape_hotel_data oneGoodPageScript 1 []).data).returned =
      (scrape_hotel_data oneGoodPageScript 1 []).data ++ t :=
  ⟨(successive_runs_amended oneGoodPageScript oneGoodPageScript 1 1).1,
   (successive_runs_amended oneGoodPageScript oneGoodPageScript 1 1).2 rfl⟩

/-- Faulty cards contribute nothing to a page's extraction. -/
theorem filterMap_extract_nonfaulty (cards : List Card) :
    (cards.filter (fun c => !isFaulty c)).filterMap extract_single_hotel =
      cards.filterMap extract_single_hotel := by
  induction cards with
  | nil => rfl
  | cons c rest ih =>
    cases c with
    | faulty =>
      simpa [List.filter_cons, isFaulty, List.filterMap_cons, extract_single_hotel] using ih
    | ok find =>
      have hfc : (Card.ok find :: rest).filter (fun c => !isFaulty c) =
          Card.ok find :: rest.filter (fun c => !isFaulty c) := by
        rw [List.filter_cons]
        simp [isFaulty]
      rw [hfc, List.filterMap_cons, List.filterMap_cons, ih]

/-- When every non-faulty card extracts a valid (non-empty-name) record,
the page's valid listings count the non-faulty cards. -/
theorem validListings_length (cards : List Card)
    (hvalid : ∀ c ∈ cards, isFaulty c = false →
      ∃ h, extract_single_hotel c = some h ∧ h.hotel_name ≠ "") :
    (validListings cards).length = cards.length - (cards.filter isFaulty).length := by
  induction cards with
  | nil => rfl
  | cons c rest ih =>
    have ih' := ih (fun x hx => hvalid x (List.mem_cons_of_mem c hx))
    cases c with
    | faulty =>
      have he : validListings (Card.faulty :: rest) = validListings rest := by
        simp [validListings, List.filterMap_cons, extract_single_hotel]
      have hf : (Card.faulty :: rest).filter isFaulty = Card.faulty :: rest.filter isFaulty := by
        simp [List.filter_cons, isFaulty]
      rw [he, ih', hf, List.length_cons, List.length_cons]
      omega
    | ok find =>
      obtain ⟨h, hh, hname⟩ := hvalid (Card.ok find) (List.mem_cons_self _ _) rfl
      have he : validListings (Card.ok find :: rest) = h :: validListings rest := by
        simp [validListings, List.filterMap_cons, hh, List.filter_cons, hname]
      have hf : (Card.ok find :: rest).filter isFaulty = rest.filter isFaulty := by
        simp [List.filter_cons, isFaulty]
      have hle : (rest.filter isFaulty).length ≤ rest.length := List.length_filter_le _ _
      rw [he, List.length_cons, ih', hf, List.length_cons]
      omega

/-- C5: page-level extraction isolates card faults: a page scrapes exactly
as if its faulty cards were absent (same appended records, same reported
count), and when every non-faulty card extracts normally the page's record
count is the number of cards minus the faulty ones.  `scrape_current_page`
is a total function: no exception escapes the page-level call. -/
theorem faulty_card_isolation_ok :
    (∀ (cards : List Card) (data : List Hotel),
      scrape_current_page cards data =
        scrape_current_page (cards.filter (fun c => !isFaulty c)) data) ∧
    (∀ (cards : List Card) (data : List Hotel),
      (∀ c ∈ cards, isFaulty c = false →
        ∃ h, extract_single_hotel c = some h ∧ h.hotel_name ≠ "") →
      (scrape_current_page cards data).2 =
        cards.length - (cards.filter isFaulty).length) := by
  constructor
  · intro cards data
    have hv : validListings (cards.filter (fun c => !isFaulty c)) = validListings cards := by
      unfold validListings
      rw [filterMap_extract_nonfaulty]
    simp only [scrape_current_page, scrape_cards_eq, hv]
  · intro cards data hvalid
    have hv := validListings_length cards hvalid
    simp only [scrape_current_page, scrape_cards_eq]
    rw [List.length_append]
    omega

/-- C5 witness: a page of three cards, the middle one faulty, reports
3 − 1 = 2 records. -/
theorem faulty_card_isolation_ok_witness :
    (scrape_current_page [cardA, Card.faulty, cardA] []).2 = 2 := by
  have hv : ∀ c ∈ [cardA, Card.faulty, cardA], isFaulty c = false →
      ∃ h, extract_single_hotel c = some h ∧ h.hotel_name ≠ "" := by
    intro c hc
    simp only [List.mem_cons, List.not_mem_nil, or_false] at hc
    rcases hc with rfl | rfl | rfl
    · intro _; exact ⟨hotelA, rfl, by decide⟩
    · intro hcontra; simp [isFaulty] at hcontra
    · intro _; exact ⟨hotelA, rfl, by decide⟩
  rw [faulty_card_isolation_ok.2 [cardA, Card.faulty, cardA] [] hv]
  decide

/-- C4: the name gate.  (1) A page appends exactly the extracted records
whose `hotel_name` is non-empty, in order.  (2) The extracted `hotel_name`
is the stripped title resolution.  (3) A card whose title resolves to the
empty string is never appended, whatever its other fields.  (4) A card with
a non-empty resolved name and every other selector unresolved is retained,
with price and rating defaulted to 0.0 and the text fields to "". -/
theorem name_gate_ok :
    (∀ (cards : List Card) (data : List Hotel),
      (scrape_current_page cards data).1 =
        data ++ (cards.filterMap extract_single_hotel).filter
          (fun h => h.hotel_name ≠ "")) ∧
    (∀ (find : Selector → Option String) (h : Hotel),
      extract_single_hotel (.ok find) = some h →
      h.hotel_name = safe_extract_text find .title) ∧
    (∀ (find : Selector → Option String) (data : List Hotel),
      safe_extract_text find .title = "" →
      (scrape_current_page [.ok find] data).1 = data) ∧
    (∀ (find : Selector → Option String),
      safe_extract_text find .title ≠ "" →
      find .price = none → find .rating = none → find .location = none →
      find .reviewCount = none → find .distance = none →
      (scrape_current_page [.ok find] []).1 =
        [⟨safe_extract_text find .title, .finite 0, .finite 0, "", "", ""⟩]) := by
  refine ⟨?_, ?_, ?_, ?_⟩
  · intro cards data
    have h1 : (scrape_current_page cards data).1 = scrape_cards cards data := rfl
    rw [h1, scrape_cards_eq]
    rfl
  · intro find h heq
    have h2 := Option.some.inj heq
    rw [← h2]
  · intro find data hname
    have h1 : (scrape_current_page [.ok find] data).1 = scrape_cards [.ok find] data := rfl
    rw [h1]
    simp [scrape_cards, extract_single_hotel, hname]
  · intro find hname hp hr hl hrc hd
    have hp' : safe_extract_text find .price = "" := by simp [safe_extract_text, hp]
    have hr' : safe_extract_text find .rating = "" := by simp [safe_extract_text, hr]
    have hl' : safe_extract_text find .location = "" := by simp [safe_extract_text, hl]
    have hrc' : safe_extract_text find .reviewCount = "" := by simp [safe_extract_text, hrc]
    have hd' : safe_extract_text find .distance = "" := by simp [safe_extract_text, hd]
    have h1 : (scrape_current_page [.ok find] []).1 = scrape_cards [.ok find] [] := rfl
    rw [h1]
    simp [scrape_cards, extract_single_hotel, hp', hr', hl', hrc', hd', hname,
      show clean_price "" = PyFloat.finite 0 from rfl,
      show clean_rating "" = PyFloat.finite 0 from rfl]

/-- C4 witness: a card resolving nothing (empty name) appends nothing; a
card resolving only a non-empty title is retained with defaulted fields. -/
theorem name_gate_ok_witness :
    (scrape_current_page [Card.ok findEmpty] []).1 = [] ∧
    (scrape_current_page [cardA] []).1 = [hotelA] := by
  constructor
  · exact name_gate_ok.2.2.1 findEmpty [] rfl
  · exact name_gate_ok.2.2.2 findA (by decide) rfl rfl rfl rfl rfl

/-- C6: `_clean_price` coincides with the spec's parsePrice on every
input, and satisfies the spec's three test values. -/
theorem clean_price_matches_contract :
    (∀ s : String, clean_price s = parsePrice_spec s) ∧
    clean_price "" = .finite 0 ∧
    clean_price "€123.45" = .finite (12345 / 100) ∧
    clean_price "abc" = .finite 0 := by
  refine ⟨?_, by decide, ?_, by decide⟩
  · intro s
    by_cases hs : s = ""
    · subst hs; rfl
    · simp only [clean_price, parsePrice_spec, if_neg hs]
      by_cases hc : s.data.filter (fun c => c.isDigit || c = '.') = []
      · rw [if_pos hc, hc]
        rfl
      · rw [if_neg hc]
  · have h : clean_price "€123.45" = pyFloatOfDec 12345 2 := by rfl
    rw [h, pyFloatOfDec_finite_small 12345 2 (by norm_num)]
    norm_num

/-- An ASCII digit's code point is between 48 and 57. -/
theorem char_digit_toNat (c : Char) (h : c.isDigit = true) : c.toNat - 48 ≤ 9 := by
  unfold Char.isDigit at h
  rw [Bool.and_eq_true, decide_eq_true_eq, decide_eq_true_eq] at h
  obtain ⟨h1, h2⟩ := h
  have t2 : c.val.toNat ≤ 57 := by
    have := UInt32.le_def.mp h2
    simpa using this
  unfold Char.toNat
  omega

/-- Horner form of the digit fold. -/
theorem digitsToNat_go (ds : List Char) (acc : Nat) :
    List.foldl (fun a c => 10 * a + (c.toNat - 48)) acc ds =
      acc * 10 ^ ds.length + digitsToNat ds := by
  induction ds generalizing acc with
  | nil => simp [digitsToNat]
  | cons c rest ih =>
    rw [List.foldl_cons, ih]
    have h2 : digitsToNat (c :: rest) =
        (10 * 0 + (c.toNat - 48)) * 10 ^ rest.length + digitsToNat rest := by
      calc digitsToNat (c :: rest)
          = List.foldl (fun a c => 10 * a + (c.toNat - 48)) (10 * 0 + (c.toNat - 48)) rest := by
            simp [digitsToNat, List.foldl_cons]
        _ = (10 * 0 + (c.toNat - 48)) * 10 ^ rest.length + digitsToNat rest := ih _
    rw [h2, List.length_cons]
    ring

/-- One digit step of `digitsToNat`. -/
theorem digitsToNat_cons (c : Char) (rest : List Char) :
    digitsToNat (c :: rest) = (c.toNat - 48) * 10 ^ rest.length + digitsToNat rest := by
  have h := digitsToNat_go rest (10 * 0 + (c.toNat - 48))
  calc digitsToNat (c :: rest)
      = List.foldl (fun a c => 10 * a + (c.toNat - 48)) (10 * 0 + (c.toNat - 48)) rest := by
        simp [digitsToNat, List.foldl_cons]
    _ = (10 * 0 + (c.toNat - 48)) * 10 ^ rest.length + digitsToNat rest := h
    _ = (c.toNat - 48) * 10 ^ rest.length + digitsToNat rest := by ring

/-- A list whose digit values are at most 9 reads below `10^length`. -/
theorem digitsToNat_lt (ds : List Char) (h : ∀ c ∈ ds, c.toNat - 48 ≤ 9) :
    digitsToNat ds < 10 ^ ds.length := by
  induction ds with
  | nil => simp [digitsToNat]
  | cons c rest ih =>
    have hv : c.toNat - 48 ≤ 9 := h c (List.mem_cons_self _ _)
    have ih' := ih (fun x hx => h x (List.mem_cons_of_mem c hx))
    rw [digitsToNat_cons, List.length_cons, pow_succ]
    calc (c.toNat - 48) * 10 ^ rest.length + digitsToNat rest
        < (c.toNat - 48) * 10 ^ rest.length + 10 ^ rest.length :=
          Nat.add_lt_add_left ih' _
      _ = ((c.toNat - 48) + 1) * 10 ^ rest.length := by ring
      _ ≤ 10 * 10 ^ rest.length := Nat.mul_le_mul_right _ (by omega)
      _ = 10 ^ rest.length * 10 := by ring

/-- A repunit of `n+1` ones is at least `10^n`. -/
theorem repunit_lower (n : Nat) : 10 ^ n ≤ digitsToNat (List.replicate (n + 1) '1') := by
  rw [List.replicate_succ, digitsToNat_cons, List.length_replicate]
  have h1 : ('1'.toNat - 48) = 1 := rfl
  rw [h1, one_mul]
  exact Nat.le_add_right _ _

/-- The 320-digit repunit reaches the double overflow threshold. -/
theorem DBL_OVERFLOW_le_repunit : DBL_OVERFLOW ≤ digitsToNat (List.replicate 320 '1') := by
  have a1 : (2 : Nat) ^ 93 ≤ 10 ^ 28 := by norm_num
  have a2 : (2 : Nat) ^ 1023 = (2 ^ 93) ^ 11 := by rw [← pow_mul]
  have a3 : ((2 : Nat) ^ 93) ^ 11 ≤ ((10 : Nat) ^ 28) ^ 11 := Nat.pow_le_pow_left a1 11
  have a4 : ((10 : Nat) ^ 28) ^ 11 = 10 ^ 308 := by rw [← pow_mul]
  have a5 : (2 : Nat) ^ 1024 = 2 ^ 1023 * 2 := by rw [← pow_succ]
  have a6 : (10 : Nat) ^ 308 * 2 ≤ 10 ^ 308 * 10 := Nat.mul_le_mul_left _ (by norm_num)
  have a7 : (10 : Nat) ^ 308 * 10 = 10 ^ 309 := by rw [← pow_succ]
  have a8 : (10 : Nat) ^ 309 ≤ 10 ^ 319 := Nat.pow_le_pow_right (by norm_num) (by norm_num)
  have a9 : 10 ^ 319 ≤ digitsToNat (List.replicate 320 '1') := repunit_lower 319
  have hD : DBL_OVERFLOW ≤ 2 ^ 1024 := by
    unfold DBL_OVERFLOW
    omega
  calc DBL_OVERFLOW ≤ 2 ^ 1024 := hD
    _ = 2 ^ 1023 * 2 := a5
    _ ≤ 10 ^ 308 * 2 := Nat.mul_le_mul_right 2 (by rw [a2, ← a4]; exact a3)
    _ ≤ 10 ^ 308 * 10 := a6
    _ = 10 ^ 309 := a7
    _ ≤ 10 ^ 319 := a8
    _ ≤ digitsToNat (List.replicate 320 '1') := a9

/-- A decimal value at or above the threshold classifies as `inf`. -/
theorem pyFloatOfDec_inf (m f : Nat) (h : DBL_OVERFLOW * 10 ^ f ≤ m) :
    pyFloatOfDec m f = .inf := by
  unfold pyFloatOfDec
  rw [if_neg (not_lt.mpr h)]

/-- `takeWhile` never lengthens a list. -/
theorem length_takeWhile_le' (p : Char → Bool) (l : List Char) :
    (l.takeWhile p).length ≤ l.length := by
  have h : (l.takeWhile p).length + (l.dropWhile p).length = l.length := by
    rw [← List.length_append, List.takeWhile_append_dropWhile]
  omega

/-- The regex match at a position is never longer than the text there. -/
theorem numeralAt_length_le (cs : List Char) : (numeralAt cs).length ≤ cs.length := by
  have hsplit : (cs.takeWhile Char.isDigit).length + (cs.dropWhile Char.isDigit).length
      = cs.length := by
    rw [← List.length_append, List.takeWhile_append_dropWhile]
  unfold numeralAt
  by_cases h : (cs.dropWhile Char.isDigit).take 1 = ['.'] ∧
      ((cs.dropWhile Char.isDigit).drop 1).takeWhile Char.isDigit ≠ []
  · rw [if_pos h]
    have h2 : (((cs.dropWhile Char.isDigit).drop 1).takeWhile Char.isDigit).length ≤
        ((cs.dropWhile Char.isDigit).drop 1).length :=
      length_takeWhile_le' _ _
    have h3 : ((cs.dropWhile Char.isDigit).drop 1).length =
        (cs.dropWhile Char.isDigit).length - 1 := List.length_drop _ _
    have h4 : 1 ≤ (cs.dropWhile Char.isDigit).length := by
      by_contra hcon
      have : cs.dropWhile Char.isDigit = [] := by
        cases hl : cs.dropWhile Char.isDigit with
        | nil => rfl
        | cons a l => rw [hl] at hcon; simp at hcon
      rw [this] at h
      simp at h
    rw [List.length_append, List.length_cons]
    omega
  · rw [if_neg h]
    omega

/-- The first regex match is never longer than the scanned text. -/
theorem findFirstNumeral_length_le (cs t : List Char)
    (h : findFirstNumeral cs = some t) : t.length ≤ cs.length := by
  induction cs with
  | nil => exact absurd h (by simp [findFirstNumeral])
  | cons c rest ih =>
    unfold findFirstNumeral at h
    by_cases hd : c.isDigit = true
    · rw [if_pos hd] at h
      rw [← Option.some.inj h]
      exact numeralAt_length_le (c :: rest)
    · rw [if_neg hd] at h
      exact le_trans (ih h) (by simp)

/-- The mantissa of a parsed token is below `10^length`. -/
theorem parseDigitDot_mantissa_lt (cs : List Char) (m f : Nat)
    (h : parseDigitDot cs = some (m, f)) : m < 10 ^ cs.length := by
  unfold parseDigitDot at h
  split at h
  · rename_i hg
    obtain ⟨hall, hcount, hany⟩ := hg
    have h2 := Option.some.inj h
    have hm : digitsToNat ((cs.takeWhile fun c => c ≠ '.') ++
        ((cs.dropWhile fun c => c ≠ '.').drop 1)) = m := congrArg Prod.fst h2
    have hmem : ∀ c ∈ (cs.takeWhile fun c => c ≠ '.') ++
        ((cs.dropWhile fun c => c ≠ '.').drop 1), c.toNat - 48 ≤ 9 := by
      intro c hc
      have hcs : c ∈ cs := by
        rcases List.mem_append.mp hc with h1 | h1
        · exact (List.takeWhile_sublist _).subset h1
        · exact (List.dropWhile_sublist _).subset ((List.drop_sublist _ _).subset h1)
      have hp : (c.isDigit || decide (c = '.')) = true := by
        have hall' := List.all_eq_true.mp hall
        exact hall' c hcs
      simp only [Bool.or_eq_true, decide_eq_true_eq] at hp
      rcases hp with hdig | hdot
      · exact char_digit_toNat c hdig
      · subst hdot
        decide
    have hlen : ((cs.takeWhile fun c => c ≠ '.') ++
        ((cs.dropWhile fun c => c ≠ '.').drop 1)).length ≤ cs.length := by
      rw [List.length_append]
      have hs : (cs.takeWhile fun c => c ≠ '.').length +
          (cs.dropWhile fun c => c ≠ '.').length = cs.length := by
        rw [← List.length_append, List.takeWhile_append_dropWhile]
      have hd : ((cs.dropWhile fun c => c ≠ '.').drop 1).length =
          (cs.dropWhile fun c => c ≠ '.').length - 1 := by
        rw [List.length_drop]
      omega
    rw [← hm]
    exact lt_of_lt_of_le (digitsToNat_lt _ hmem) (Nat.pow_le_pow_right (by norm_num) hlen)
  · exact absurd h (by simp)

set_option maxRecDepth 8192 in
/-- C8 counterexample: on a 320-digit input both normalizers hand Python
`float()` a numeral above the IEEE-754 double overflow threshold; the
conversion yields `inf` — not a finite number — without raising, so the
claim that every input produces a finite result is false. -/
theorem normalizer_overflow_counterexample :
    clean_price bigOnes = PyFloat.inf ∧ clean_rating bigOnes = PyFloat.inf := by
  have hm : DBL_OVERFLOW * 10 ^ 0 ≤ digitsToNat (List.replicate 320 '1') := by
    rw [pow_zero, Nat.mul_one]
    exact DBL_OVERFLOW_le_repunit
  constructor
  · have h1 : clean_price bigOnes = pyFloatOfDec (digitsToNat (List.replicate 320 '1')) 0 := by
      rfl
    rw [h1]
    exact pyFloatOfDec_inf _ _ hm
  · have h1 : clean_rating bigOnes = pyFloatOfDec (digitsToNat (List.replicate 320 '1')) 0 := by
      rfl
    rw [h1]
    exact pyFloatOfDec_inf _ _ hm

/-- C8 amended: both normalizers are total functions of the input string —
they never raise (every branch, including malformed tokens with multiple
dots, returns a value) — and they return a FINITE number on every input of
at most 305 characters; only numerals long enough to reach the double
overflow threshold (≥ 309 digits) make Python `float()` return `inf`
instead (see the counterexample). -/
theorem normalizer_total_amended (s : String) (hlen : s.length ≤ 305) :
    (∃ q, clean_price s = .finite q) ∧ (∃ q, clean_rating s = .finite q) := by
  have hpow : (10 : Nat) ^ 305 ≤ 2 ^ 1023 := by
    have b1 : (10 : Nat) ^ 3 ≤ 2 ^ 10 := by norm_num
    have b2 : (10 : Nat) ^ 305 ≤ 10 ^ 306 := Nat.pow_le_pow_right (by norm_num) (by norm_num)
    have b3 : (10 : Nat) ^ 306 = (10 ^ 3) ^ 102 := by rw [← pow_mul]
    have b4 : ((10 : Nat) ^ 3) ^ 102 ≤ ((2 : Nat) ^ 10) ^ 102 := Nat.pow_le_pow_left b1 102
    have b5 : ((2 : Nat) ^ 10) ^ 102 = 2 ^ 1020 := by rw [← pow_mul]
    have b6 : (2 : Nat) ^ 1020 ≤ 2 ^ 1023 := Nat.pow_le_pow_right (by norm_num) (by norm_num)
    omega
  have hsdata : s.data.length = s.length := rfl
  constructor
  · by_cases hs : s = ""
    · subst hs; exact ⟨0, rfl⟩
    · unfold clean_price
      rw [if_neg hs]
      by_cases hc : s.data.filter (fun c => c.isDigit || c = '.') = []
      · rw [if_pos hc]; exact ⟨0, rfl⟩
      · rw [if_neg hc]
        cases hp : parseDigitDot (s.data.filter (fun c => c.isDigit || c = '.')) with
        | none => exact ⟨0, rfl⟩
        | some mf =>
          obtain ⟨m, f⟩ := mf
          have hflen : (s.data.filter (fun c => c.isDigit || c = '.')).length ≤ 305 :=
            le_trans (le_trans (List.length_filter_le _ _) (le_of_eq hsdata)) hlen
          have hm : m < 10 ^ (s.data.filter (fun c => c.isDigit || c = '.')).length :=
            parseDigitDot_mantissa_lt _ m f hp
          have hmle : m < 2 ^ 1023 :=
            lt_of_lt_of_le hm (le_trans (Nat.pow_le_pow_right (by norm_num) hflen) hpow)
          refine ⟨(m : ℚ) / 10 ^ f, ?_⟩
          exact pyFloatOfDec_finite m f hmle
  · by_cases hs : s = ""
    · subst hs; exact ⟨0, rfl⟩
    · unfold clean_rating
      rw [if_neg hs]
      cases hf : findFirstNumeral s.data with
      | none => exact ⟨0, rfl⟩
      | some t =>
        show ∃ q, (match parseDigitDot t with
          | some (m, f) => pyFloatOfDec m f
          | none => PyFloat.finite 0) = PyFloat.finite q
        cases hp : parseDigitDot t with
        | none => exact ⟨0, rfl⟩
        | some mf =>
          obtain ⟨m, f⟩ := mf
          have htlen : t.length ≤ 305 :=
            le_trans (le_trans (findFirstNumeral_length_le s.data t hf) (le_of_eq hsdata)) hlen
          have hm : m < 10 ^ t.length := parseDigitDot_mantissa_lt t m f hp
          have hmle : m < 2 ^ 1023 :=
            lt_of_lt_of_le hm (le_trans (Nat.pow_le_pow_right (by norm_num) htlen) hpow)
          refine ⟨(m : ℚ) / 10 ^ f, ?_⟩
          exact pyFloatOfDec_finite m f hmle

/-- C8 amended witness: a short input gives finite results. -/
theorem normalizer_total_amended_witness :
    (∃ q, clean_price "9.99" = PyFloat.finite q) ∧
    ∃ q, clean_rating "9.99" = PyFloat.finite q :=
  normalizer_total_amended "9.99" (by decide)

/-- A list all of whose elements satisfy `p` is its own `takeWhile`. -/
theorem takeWhile_all (p : Char → Bool) (l : List Char) (h : ∀ c ∈ l, p c = true) :
    l.takeWhile p = l := by
  induction l with
  | nil => rfl
  | cons a l' ih =>
    rw [List.takeWhile_cons, if_pos (h a (List.mem_cons_self _ _))]
    rw [ih (fun c hc => h c (List.mem_cons_of_mem a hc))]

/-- A list all of whose elements satisfy `p` has empty `dropWhile`. -/
theorem dropWhile_all (p : Char → Bool) (l : List Char) (h : ∀ c ∈ l, p c = true) :
    l.dropWhile p = [] := by
  induction l with
  | nil => rfl
  | cons a l' ih =>
    rw [List.dropWhile_cons, if_pos (h a (List.mem_cons_self _ _))]
    exact ih (fun c hc => h c (List.mem_cons_of_mem a hc))

/-- Elements of a `takeWhile` satisfy the predicate. -/
theorem takeWhile_mem_imp (p : Char → Bool) (l : List Char) (c : Char)
    (hc : c ∈ l.takeWhile p) : p c = true := by
  induction l with
  | nil => simp [List.takeWhile] at hc
  | cons a l' ih =>
    rw [List.takeWhile_cons] at hc
    by_cases hp : p a = true
    · rw [if_pos hp] at hc
      rcases List.mem_cons.mp hc with rfl | hc2
      · exact hp
      · exact ih hc2
    · rw [if_neg hp] at hc
      simp at hc

/-- The head of a `dropWhile` falsifies the predicate. -/
theorem dropWhile_head_false (p : Char → Bool) (l : List Char) (w : Char) (wt : List Char)
    (h : l.dropWhile p = w :: wt) : p w = false := by
  induction l with
  | nil => simp [List.dropWhile] at h
  | cons a l' ih =>
    rw [List.dropWhile_cons] at h
    by_cases hp : p a = true
    · rw [if_pos hp] at h
      exact ih h
    · rw [if_neg hp] at h
      injection h with h1 h2
      rw [← h1]
      cases hb : p a with
      | true => exact absurd hb hp
      | false => rfl

/-- Splitting `takeWhile`/`dropWhile` across an all-true prefix followed by a
suffix whose head is false. -/
theorem takeWhile_append_hd (p : Char → Bool) (a b : List Char)
    (ha : ∀ c ∈ a, p c = true) (hb : ∀ d bt, b = d :: bt → p d = false) :
    (a ++ b).takeWhile p = a ∧ (a ++ b).dropWhile p = b := by
  induction a with
  | nil =>
    rw [List.nil_append]
    cases hbb : b with
    | nil => exact ⟨rfl, rfl⟩
    | cons d bt =>
      have hd := hb d bt hbb
      constructor
      · rw [List.takeWhile_cons, if_neg (by simp [hd])]
      · rw [List.dropWhile_cons, if_neg (by simp [hd])]
  | cons x a' ih =>
    have hx : p x = true := ha x (List.mem_cons_self _ _)
    obtain ⟨ih1, ih2⟩ := ih (fun c hc => ha c (List.mem_cons_of_mem x hc))
    constructor
    · rw [List.cons_append, List.takeWhile_cons, if_pos hx, ih1]
    · rw [List.cons_append, List.dropWhile_cons, if_pos hx, ih2]

/-- An all-true prefix is never longer than the `takeWhile` of the whole. -/
theorem prefix_all_le_takeWhile (p : Char → Bool) (a b : List Char)
    (ha : ∀ c ∈ a, p c = true) : a.length ≤ ((a ++ b).takeWhile p).length := by
  induction a with
  | nil => simp
  | cons x a' ih =>
    have hx : p x = true := ha x (List.mem_cons_self _ _)
    rw [List.cons_append, List.takeWhile_cons, if_pos hx, List.length_cons, List.length_cons]
    exact Nat.succ_le_succ (ih (fun c hc => ha c (List.mem_cons_of_mem x hc)))

/-- Every string matching the numeral pattern starts with a digit. -/
theorem isNumeral_head (m : List Char) (h : isNumeral m = true) :
    ∃ d tl, m = d :: tl ∧ d.isDigit = true := by
  cases m with
  | nil => simp [isNumeral, List.takeWhile] at h
  | cons d tl =>
    by_cases hd : d.isDigit = true
    · exact ⟨d, tl, rfl, hd⟩
    · rw [isNumeral, List.takeWhile_cons, if_neg hd] at h
      rw [if_pos rfl] at h
      simp at h

/-- Shape of a numeral-pattern match: a nonempty digit run, and either
nothing more, or a dot followed by a nonempty digit run. -/
theorem isNumeral_shape (m : List Char) (h : isNumeral m = true) :
    m.takeWhile Char.isDigit ≠ [] ∧
      (m.dropWhile Char.isDigit = [] ∨
        ∃ M2, m.dropWhile Char.isDigit = '.' :: M2 ∧ M2 ≠ [] ∧
          ∀ c ∈ M2, c.isDigit = true) := by
  rw [isNumeral] at h
  by_cases h1 : m.takeWhile Char.isDigit = []
  · rw [if_pos h1] at h
    simp at h
  · rw [if_neg h1] at h
    refine ⟨h1, ?_⟩
    by_cases h2 : m.dropWhile Char.isDigit = []
    · exact Or.inl h2
    · rw [if_neg h2] at h
      by_cases h3 : (m.dropWhile Char.isDigit).take 1 = ['.'] ∧
          (m.dropWhile Char.isDigit).drop 1 ≠ [] ∧
          ((m.dropWhile Char.isDigit).drop 1).all Char.isDigit
      · obtain ⟨h31, h32, h33⟩ := h3
        right
        cases hW : m.dropWhile Char.isDigit with
        | nil => exact absurd hW h2
        | cons w wt =>
          rw [hW] at h31 h32 h33
          simp only [List.take, List.drop] at h31 h32 h33
          have hw : w = '.' := by
            have := List.head_eq_of_cons_eq h31
            exact this
          refine ⟨wt, by rw [hw], ?_, ?_⟩
          · simpa using h32
          · intro c hc
            exact List.all_eq_true.mp (by simpa using h33) c hc
      · rw [if_neg h3] at h
        simp at h

/-- At a position whose text starts with a digit, the regex match is a
genuine full match of the numeral pattern and a prefix of the text. -/
theorem isNumeral_numeralAt (rest : List Char) (d : Char) (tl : List Char)
    (hrest : rest = d :: tl) (hd : d.isDigit = true) :
    isNumeral (numeralAt rest) = true ∧ ∃ post, rest = numeralAt rest ++ post := by
  have hDdig : ∀ c ∈ rest.takeWhile Char.isDigit, c.isDigit = true :=
    fun c hc => takeWhile_mem_imp _ _ _ hc
  have hDne : rest.takeWhile Char.isDigit ≠ [] := by
    rw [hrest, List.takeWhile_cons, if_pos hd]
    simp
  have hDW : rest.takeWhile Char.isDigit ++ rest.dropWhile Char.isDigit = rest :=
    List.takeWhile_append_dropWhile Char.isDigit rest
  unfold numeralAt
  by_cases hcond : (rest.dropWhile Char.isDigit).take 1 = ['.'] ∧
      ((rest.dropWhile Char.isDigit).drop 1).takeWhile Char.isDigit ≠ []
  · rw [if_pos hcond]
    obtain ⟨ht1, ht2⟩ := hcond
    obtain ⟨w, wt, hW⟩ : ∃ w wt, rest.dropWhile Char.isDigit = w :: wt := by
      cases hW : rest.dropWhile Char.isDigit with
      | nil => rw [hW] at ht1; simp at ht1
      | cons w wt => exact ⟨w, wt, rfl⟩
    have hw : w = '.' := by
      rw [hW] at ht1
      simpa using ht1
    subst hw
    have hdrop : (rest.dropWhile Char.isDigit).drop 1 = wt := by rw [hW]; rfl
    rw [hdrop]
    have hD2ne : wt.takeWhile Char.isDigit ≠ [] := by rw [hdrop] at ht2; exact ht2
    have hD2dig : ∀ c ∈ wt.takeWhile Char.isDigit, c.isDigit = true :=
      fun c hc => takeWhile_mem_imp _ _ _ hc
    constructor
    · have hsplit := takeWhile_append_hd Char.isDigit (rest.takeWhile Char.isDigit)
        ('.' :: wt.takeWhile Char.isDigit) hDdig
        (fun e et he => by
          injection he with he1 he2
          rw [← he1]
          decide)
      rw [isNumeral, hsplit.1, hsplit.2, if_neg hDne, if_neg (List.cons_ne_nil _ _)]
      rw [if_pos ⟨by simp, by simpa using hD2ne,
        by simpa using List.all_eq_true.mpr hD2dig⟩]
    · refine ⟨wt.dropWhile Char.isDigit, ?_⟩
      have hwt : wt.takeWhile Char.isDigit ++ wt.dropWhile Char.isDigit = wt :=
        List.takeWhile_append_dropWhile Char.isDigit wt
      calc rest = rest.takeWhile Char.isDigit ++ rest.dropWhile Char.isDigit := hDW.symm
        _ = rest.takeWhile Char.isDigit ++ ('.' :: wt) := by rw [hW]
        _ = rest.takeWhile Char.isDigit ++
              ('.' :: (wt.takeWhile Char.isDigit ++ wt.dropWhile Char.isDigit)) := by rw [hwt]
        _ = (rest.takeWhile Char.isDigit ++ '.' :: wt.takeWhile Char.isDigit) ++
              wt.dropWhile Char.isDigit := by simp [List.append_assoc]
  · rw [if_neg hcond]
    constructor
    · rw [isNumeral, takeWhile_all Char.isDigit _ hDdig, if_neg hDne,
        dropWhile_all Char.isDigit _ hDdig, if_pos rfl]
    · exact ⟨rest.dropWhile Char.isDigit, hDW.symm⟩

/-- No full match of the numeral pattern starting at the same position is
longer than the regex match there. -/
theorem numeralAt_max (rest m p2 : List Char)
    (hmp : rest = m ++ p2) (hnum : isNumeral m = true) :
    m.length ≤ (numeralAt rest).length := by
  have hM1dig : ∀ c ∈ m.takeWhile Char.isDigit, c.isDigit = true :=
    fun c hc => takeWhile_mem_imp _ _ _ hc
  have hMW : m.takeWhile Char.isDigit ++ m.dropWhile Char.isDigit = m :=
    List.takeWhile_append_dropWhile Char.isDigit m
  obtain ⟨hM1ne, hshape⟩ := isNumeral_shape m hnum
  rcases hshape with hWnil | ⟨M2, hWdot, hM2ne, hM2dig⟩
  · have hm : m.takeWhile Char.isDigit = m := by
      conv_rhs => rw [← hMW, hWnil, List.append_nil]
    have hmall : ∀ c ∈ m, c.isDigit = true := by
      intro c hc
      have hc' : c ∈ m.takeWhile Char.isDigit := by rw [hm]; exact hc
      exact hM1dig c hc'
    have hlen : m.length ≤ (rest.takeWhile Char.isDigit).length := by
      rw [hmp]
      exact prefix_all_le_takeWhile Char.isDigit m p2 hmall
    unfold numeralAt
    by_cases hcond : (rest.dropWhile Char.isDigit).take 1 = ['.'] ∧
        ((rest.dropWhile Char.isDigit).drop 1).takeWhile Char.isDigit ≠ []
    · rw [if_pos hcond, List.length_append, List.length_cons]
      omega
    · rw [if_neg hcond]
      exact hlen
  · have hm2 : m = m.takeWhile Char.isDigit ++ '.' :: M2 := by
      conv_lhs => rw [← hMW]
      rw [hWdot]
    have hrest2 : rest = m.takeWhile Char.isDigit ++ ('.' :: (M2 ++ p2)) := by
      rw [hmp]
      conv_lhs => rw [hm2]
      simp [List.append_assoc]
    have hsplit := takeWhile_append_hd Char.isDigit (m.takeWhile Char.isDigit)
      ('.' :: (M2 ++ p2)) hM1dig
      (fun e et he => by
        injection he with he1 he2
        rw [← he1]
        decide)
    have hT : rest.takeWhile Char.isDigit = m.takeWhile Char.isDigit := by
      rw [hrest2]
      exact hsplit.1
    have hD : rest.dropWhile Char.isDigit = '.' :: (M2 ++ p2) := by
      rw [hrest2]
      exact hsplit.2
    have hM2le : M2.length ≤ ((M2 ++ p2).takeWhile Char.isDigit).length :=
      prefix_all_le_takeWhile Char.isDigit M2 p2 hM2dig
    have hD2ne : ((M2 ++ p2).takeWhile Char.isDigit) ≠ [] := by
      intro hnil
      rw [hnil] at hM2le
      simp at hM2le
      exact hM2ne hM2le
    have hcond : (rest.dropWhile Char.isDigit).take 1 = ['.'] ∧
        ((rest.dropWhile Char.isDigit).drop 1).takeWhile Char.isDigit ≠ [] := by
      rw [hD]
      exact ⟨by simp, by simpa using hD2ne⟩
    unfold numeralAt
    rw [if_pos hcond, hT, hD]
    have hdrop : ('.' :: (M2 ++ p2)).drop 1 = M2 ++ p2 := rfl
    rw [hdrop, List.length_append, List.length_cons]
    have hmlen : m.length = (m.takeWhile Char.isDigit).length + (M2.length + 1) := by
      conv_lhs => rw [hm2]
      rw [List.length_append, List.length_cons]
    omega

/-- Every full match of the numeral pattern is a valid float token, so
`float()` accepts it. -/
theorem parseDigitDot_isNumeral (t : List Char) (h : isNumeral t = true) :
    ∃ m f, parseDigitDot t = some (m, f) := by
  obtain ⟨hM1ne, hshape⟩ := isNumeral_shape t h
  have hTdig : ∀ c ∈ t.takeWhile Char.isDigit, c.isDigit = true :=
    fun c hc => takeWhile_mem_imp _ _ _ hc
  have hTW : t.takeWhile Char.isDigit ++ t.dropWhile Char.isDigit = t :=
    List.takeWhile_append_dropWhile Char.isDigit t
  have hdotT : ('.' : Char) ∉ t.takeWhile Char.isDigit := by
    intro hmem
    exact absurd (hTdig '.' hmem) (by decide)
  obtain ⟨d, tl, htd, hd⟩ := isNumeral_head t h
  have hall : t.all (fun c => c.isDigit || decide (c = '.')) = true := by
    refine List.all_eq_true.mpr ?_
    intro c hc
    rw [← hTW] at hc
    rcases List.mem_append.mp hc with h1 | h1
    · simp [hTdig c h1]
    · rcases hshape with hWnil | ⟨M2, hWdot, hM2ne, hM2dig⟩
      · rw [hWnil] at h1
        simp at h1
      · rw [hWdot] at h1
        rcases List.mem_cons.mp h1 with rfl | h2
        · decide
        · simp [hM2dig c h2]
  have hcount : t.count '.' ≤ 1 := by
    conv_lhs => rw [← hTW]
    rw [List.count_append]
    have hc1 : (t.takeWhile Char.isDigit).count '.' = 0 := List.count_eq_zero.mpr hdotT
    rcases hshape with hWnil | ⟨M2, hWdot, hM2ne, hM2dig⟩
    · rw [hWnil, hc1]
      simp
    · rw [hWdot, hc1]
      have hcM2 : M2.count '.' = 0 := List.count_eq_zero.mpr (by
        intro hmem
        exact absurd (hM2dig '.' hmem) (by decide))
      rw [List.count_cons_self, hcM2]
  have hany : t.any Char.isDigit = true := by
    refine List.any_eq_true.mpr ⟨d, ?_, hd⟩
    rw [htd]
    exact List.mem_cons_self _ _
  refine ⟨digitsToNat ((t.takeWhile fun c => c ≠ '.') ++
      ((t.dropWhile fun c => c ≠ '.').drop 1)),
    ((t.dropWhile fun c => c ≠ '.').drop 1).length, ?_⟩
  rw [parseDigitDot, if_pos ⟨hall, hcount, hany⟩]

/-- A digit-free text has no numeral match. -/
theorem findFirstNumeral_none (cs : List Char) (h : ∀ c ∈ cs, c.isDigit = false) :
    findFirstNumeral cs = none := by
  induction cs with
  | nil => rfl
  | cons c rest ih =>
    unfold findFirstNumeral
    rw [if_neg (by simp [h c (List.mem_cons_self c rest)])]
    exact ih (fun x hx => h x (List.mem_cons_of_mem c hx))

/-- The scan for the first numeral splits the text into a digit-free run
followed by a digit-headed tail whose regex match is the result. -/
theorem findFirstNumeral_split (cs t : List Char) (h : findFirstNumeral cs = some t) :
    ∃ pre rest, cs = pre ++ rest ∧ (∀ c ∈ pre, c.isDigit = false) ∧
      t = numeralAt rest ∧ ∃ d tl, rest = d :: tl ∧ d.isDigit = true := by
  induction cs with
  | nil => exact absurd h (by simp [findFirstNumeral])
  | cons c cs' ih =>
    unfold findFirstNumeral at h
    by_cases hd : c.isDigit = true
    · rw [if_pos hd] at h
      exact ⟨[], c :: cs', rfl, by simp, (Option.some.inj h).symm, c, cs', rfl, hd⟩
    · rw [if_neg hd] at h
      obtain ⟨pre, rest, heq, hpre, ht, hrest⟩ := ih h
      refine ⟨c :: pre, rest, by rw [List.cons_append, heq], ?_, ht, hrest⟩
      intro x hx
      rcases List.mem_cons.mp hx with rfl | hx2
      · cases hb : x.isDigit with
        | true => exact absurd hb hd
        | false => rfl
      · exact hpre x hx2

/-- C7: `_clean_rating` returns the value of the first substring matching the
numeral pattern `\d+\.\d+|\d+`, and 0.0 when none exists.  The three spec
test values hold; every pattern match starts with a digit; a digit-free text
yields 0.0; and whenever the scan finds a match `t`: `t` matches the pattern
in full, occurs in the text preceded only by non-digit characters (so no
pattern match starts earlier), no longer pattern match starts at the same
position (regex greediness), and the result is exactly Python `float(t)`. -/
theorem clean_rating_first_numeral_ok :
    clean_rating "8.3 Good" = .finite (83 / 10) ∧
    clean_rating "Wonderful" = .finite 0 ∧
    clean_rating "9" = .finite 9 ∧
    (∀ m : List Char, isNumeral m = true → ∃ d tl, m = d :: tl ∧ d.isDigit = true) ∧
    (∀ s : String, (∀ c ∈ s.data, c.isDigit = false) → clean_rating s = .finite 0) ∧
    (∀ (s : String) (t : List Char), findFirstNumeral s.data = some t →
      isNumeral t = true ∧
      (∃ pre post, s.data = pre ++ t ++ post ∧
        (∀ c ∈ pre, c.isDigit = false) ∧
        (∀ m p2, t ++ post = m ++ p2 → isNumeral m = true → m.length ≤ t.length)) ∧
      ∃ m f, parseDigitDot t = some (m, f) ∧ clean_rating s = pyFloatOfDec m f) := by
  refine ⟨?_, by decide, ?_, isNumeral_head, ?_, ?_⟩
  · have h : clean_rating "8.3 Good" = pyFloatOfDec 83 1 := by rfl
    rw [h, pyFloatOfDec_finite_small 83 1 (by norm_num)]
    norm_num
  · have h : clean_rating "9" = pyFloatOfDec 9 0 := by rfl
    rw [h, pyFloatOfDec_finite_small 9 0 (by norm_num)]
    norm_num
  · intro s hnod
    by_cases hs : s = ""
    · subst hs; rfl
    · rw [clean_rating, if_neg hs, findFirstNumeral_none s.data hnod]
  · intro s t hf
    obtain ⟨pre, rest, heq, hpre, ht, d, tl, hrest, hd⟩ := findFirstNumeral_split s.data t hf
    have hN := isNumeral_numeralAt rest d tl hrest hd
    rw [← ht] at hN
    obtain ⟨hnum, post, hpost⟩ := hN
    have hs : s ≠ "" := by
      intro he
      rw [he] at hf
      simp [findFirstNumeral] at hf
    refine ⟨hnum, ⟨pre, post, ?_, hpre, ?_⟩, ?_⟩
    · rw [heq, hpost, List.append_assoc]
    · intro m p2 hm hn
      have h1 : rest = m ++ p2 := by rw [← hpost] at hm; exact hm
      have h2 := numeralAt_max rest m p2 h1 hn
      rw [← ht] at h2
      exact h2
    · obtain ⟨m, f, hp⟩ := parseDigitDot_isNumeral t hnum
      refine ⟨m, f, hp, ?_⟩
      rw [clean_rating, if_neg hs, hf]
      show (match parseDigitDot t with
        | some (m, f) => pyFloatOfDec m f
        | none => PyFloat.finite 0) = pyFloatOfDec m f
      rw [hp]

/-- C7 witness: the numeral-head fact at `['9']`; the digit-free text
`"xyz"`; and the scan of `"a8.3b"`, whose first match is `8.3`. -/
theorem clean_rating_first_numeral_ok_witness :
    (∃ d tl, ['9'] = d :: tl ∧ d.isDigit = true) ∧
    clean_rating "xyz" = PyFloat.finite 0 ∧
    (isNumeral ['8', '.', '3'] = true ∧
      (∃ pre post, "a8.3b".data = pre ++ ['8', '.', '3'] ++ post ∧
        (∀ c ∈ pre, c.isDigit = false) ∧
        (∀ m p2, ['8', '.', '3'] ++ post = m ++ p2 → isNumeral m = true →
          m.length ≤ (['8', '.', '3'] : List Char).length)) ∧
      ∃ m f, parseDigitDot ['8', '.', '3'] = some (m, f) ∧
        clean_rating "a8.3b" = pyFloatOfDec m f) :=
  ⟨clean_rating_first_numeral_ok.2.2.2.1 ['9'] (by decide),
   clean_rating_first_numeral_ok.2.2.2.2.1 "xyz" (by decide),
   clean_rating_first_numeral_ok.2.2.2.2.2 "a8.3b" ['8', '.', '3'] (by decide)⟩
